import Mathlib

/-!
# The MoonScript loader shim (`bin/binaries/moonscript.c`)

A shallow embedding of `setloaded` and `luaopen_moonscript` over a model of the
part of the Lua C API they use, and the properties of the registrar that the
specification states.

The two C functions are transcribed statement by statement.  The Lua library
itself is not part of the repository; its functions are modelled after the Lua
reference manual:

* values are `nil`, booleans, numbers, strings and references to tables,
  functions and userdata; tables live in a store and are aliased by reference,
  the table of globals being one of them;
* `lua_getfield` / `lua_setfield` / `lua_getglobal` are the non-raw accessors:
  a raw hit is returned directly, a raw miss consults the `__index` /
  `__newindex` metamethod when the indexed value has one, and indexing a value
  that is no table and has no metamethod raises a type error;
* code that lives outside the file (metamethod handlers, `luaopen_lpeg`, the
  decoder behind `luaL_loadbuffer`, the body of a called function) is supplied
  by an environment record `Env`, over which every theorem quantifies;
* an error raised through `lua_error` (a `longjmp` in C) is the `error` case
  of `Except`;
* every run of the entry point yields, besides its outcome, the ghost trace of
  the calls that left the file, in order; the trace survives a raised error.

Memory exhaustion, stack-capacity overflow and garbage-collector finalisers are
outside the model.
-/

namespace Moonscript

/-! ## Lua values, store and interpreter state -/

/-- A Lua value.  Tables, functions and userdata are references; numbers are carried as
integers, the file doing no arithmetic. -/
inductive Value where
  | nil
  | bool (b : Bool)
  | num (n : Int)
  | str (s : String)
  | table (id : Nat)
  | func (id : Nat)
  | udata (id : Nat)
  deriving DecidableEq, Repr, Inhabited

/-- The table store of an interpreter: the raw contents of every table (an
absent key maps to `nil`), which values currently have an `__index` respectively
`__newindex` metamethod, and the reference of the table of globals. -/
structure Store where
  raw : Nat → Value → Value
  hasIndex : Value → Bool
  hasNewindex : Value → Bool
  globals : Nat

/-- Ways in which a C API call does not return normally. -/
inductive Err where
  /-- Lua type error, e.g. "attempt to index a nil value". -/
  | typeError (v : Value)
  /-- An error raised by code outside the file, carrying its error value. -/
  | raised (v : Value)
  /-- A stack index that is not acceptable: the API leaves the behaviour undefined. -/
  | invalidIndex
  deriving DecidableEq, Repr

/-- The interpreter state behind a `lua_State*`: the store and the stack of the
running C function (bottom first, so index 1 is the head). -/
structure lua_State where
  store : Store
  stack : List Value

/-- Ghost record of a call that leaves the file. -/
inductive Event where
  /-- The call `luaopen_lpeg(l)` was made. -/
  | openLpeg
  /-- The call `lua_call(l, nargs, nresults)` invoked `f`; `stack` and `store` are the
  interpreter state at the moment of the call. -/
  | call (f : Value) (nargs nresults : Nat) (stack : List Value) (store : Store)

/-- A run of C code that calls out of the file: the trace of the calls made, and the
outcome.  The trace is kept when the outcome is an error. -/
def Run (α : Type) : Type := List Event × Except Err α

instance : Monad Run where
  pure a := ([], .ok a)
  bind x f :=
    match x with
    | (es, .error e) => (es, .error e)
    | (es, .ok a) => (es ++ (f a).1, (f a).2)

instance : MonadLift (Except Err) Run where
  monadLift x := ([], x)

/-- Behaviour of everything the file calls but does not define. -/
structure Env where
  /-- Result of running the `__index` metamethod of `t` for key `k`. -/
  onIndex : Value → Value → Store → Except Err (Store × Value)
  /-- Result of running the `__newindex` metamethod of `t` for key `k` and value `v`. -/
  onNewindex : Value → Value → Value → Store → Except Err Store
  /-- The C function `luaopen_lpeg`: from store and stack to the new store, the new
  stack and the returned count. -/
  openLpeg : Store → List Value → Except Err (Store × List Value × Int)
  /-- The decoder behind `luaL_loadbuffer`: status code and the value it pushes
  (the compiled function when the status is 0, an error message otherwise). -/
  loadbuffer : List Nat → Nat → String → Store → Int × Value
  /-- Result of calling the value `f` with the given arguments: the new store and
  the list of all values it returns. -/
  call : Value → List Value → Store → Except Err (Store × List Value)

/-! ## The Lua C API functions used by the file -/

/-- Raw store update `t[k] = v`. -/
def Store.set (st : Store) (t : Nat) (k v : Value) : Store :=
  { st with raw := fun t' k' => if t' = t ∧ k' = k then v else st.raw t' k' }

/-- Non-raw read `t[k]` (`luaV_gettable`). -/
def gettable (env : Env) (st : Store) (t k : Value) : Except Err (Store × Value) :=
  match t with
  | .table id =>
    if st.raw id k ≠ .nil ∨ st.hasIndex t = false then .ok (st, st.raw id k)
    else env.onIndex t k st
  | _ => if st.hasIndex t = true then env.onIndex t k st else .error (.typeError t)

/-- Non-raw write `t[k] = v` (`luaV_settable`). -/
def settable (env : Env) (st : Store) (t k v : Value) : Except Err Store :=
  match t with
  | .table id =>
    if st.raw id k ≠ .nil ∨ st.hasNewindex t = false then .ok (st.set id k v)
    else env.onNewindex t k v st
  | _ => if st.hasNewindex t = true then env.onNewindex t k v st else .error (.typeError t)

/-- The value at an acceptable stack index (positive from the bottom, negative
from the top); `none` for index 0 and for indices beyond the stack. -/
def index2adr (L : lua_State) (idx : Int) : Option Value :=
  if 0 < idx then L.stack.get? (idx.toNat - 1)
  else if idx < 0 ∧ (-idx).toNat ≤ L.stack.length then
    L.stack.get? (L.stack.length - (-idx).toNat)
  else none

def lua_gettop (L : lua_State) : Int := L.stack.length

/-- Push a value (`api_incr_top`). -/
def lua_State.push (L : lua_State) (v : Value) : lua_State :=
  { L with stack := L.stack ++ [v] }

def lua_getglobal (env : Env) (L : lua_State) (name : String) : Except Err lua_State := do
  let (st, v) ← gettable env L.store (.table L.store.globals) (.str name)
  pure { store := st, stack := L.stack ++ [v] }

def lua_getfield (env : Env) (L : lua_State) (idx : Int) (k : String) : Except Err lua_State :=
  match index2adr L idx with
  | none => .error .invalidIndex
  | some t => do
    let (st, v) ← gettable env L.store t (.str k)
    pure { store := st, stack := L.stack ++ [v] }

def lua_isnil (L : lua_State) (idx : Int) : Bool :=
  match index2adr L idx with
  | some .nil => true
  | _ => false

def lua_settop (L : lua_State) (idx : Int) : Except Err lua_State :=
  if 0 ≤ idx then
    .ok { L with stack := L.stack.take idx.toNat ++ List.replicate (idx.toNat - L.stack.length) .nil }
  else if (-(idx + 1)).toNat ≤ L.stack.length then
    .ok { L with stack := L.stack.take (L.stack.length - (-(idx + 1)).toNat) }
  else .error .invalidIndex

/-- The macro `lua_pop(L, n)` is `lua_settop(L, -(n)-1)`. -/
def lua_pop (L : lua_State) (n : Int) : Except Err lua_State :=
  lua_settop L (-n - 1)

def lua_pushvalue (L : lua_State) (idx : Int) : Except Err lua_State :=
  match index2adr L idx with
  | none => .error .invalidIndex
  | some v => .ok (L.push v)

/-- The call `lua_setfield(L, idx, k)`: does `t[k] = v` for the table `t` at `idx` and the
value `v` on top of the stack, then pops `v`. -/
def lua_setfield (env : Env) (L : lua_State) (idx : Int) (k : String) : Except Err lua_State :=
  match index2adr L idx, L.stack.getLast? with
  | some t, some v => do
    let st ← settable env L.store t (.str k) v
    pure { store := st, stack := L.stack.dropLast }
  | _, _ => .error .invalidIndex

/-- Adjust a list of results to exactly `n` values: truncate, or pad with `nil`. -/
def adjustResults (n : Nat) (rets : List Value) : List Value :=
  rets.take n ++ List.replicate (n - rets.length) .nil

/-- The unprotected call `lua_call(L, nargs, nresults)`: the function sits below its
`nargs` arguments; all are popped and the results, adjusted to `nresults`, are pushed.
An error raised by the callee propagates. -/
def lua_call (env : Env) (L : lua_State) (nargs nresults : Nat) : Run lua_State :=
  if nargs + 1 ≤ L.stack.length then
    match L.stack.get? (L.stack.length - (nargs + 1)) with
    | none => ([], .error .invalidIndex)
    | some f =>
      ([.call f nargs nresults L.stack L.store],
        match env.call f (L.stack.drop (L.stack.length - nargs)) L.store with
        | .error e => .error e
        | .ok (st, rets) =>
          .ok { store := st
                stack := L.stack.take (L.stack.length - (nargs + 1)) ++
                  adjustResults nresults rets })
  else ([], .error .invalidIndex)

/-- The call `luaL_loadbuffer(L, buff, sz, name)`: pushes the compiled chunk or an error
message and returns the status. -/
def luaL_loadbuffer (env : Env) (L : lua_State) (buff : List Nat) (sz : Nat) (name : String) :
    lua_State × Int :=
  let r := env.loadbuffer buff sz name L.store
  (L.push r.2, r.1)

/-- The collaborator `luaopen_lpeg`, declared but not defined in the file. -/
def luaopen_lpeg (env : Env) (L : lua_State) : Run (lua_State × Int) :=
  ([.openLpeg],
    match env.openLpeg L.store L.stack with
    | .error e => .error e
    | .ok (st, stk, n) => .ok ({ store := st, stack := stk }, n))

/-! ## The two functions of `moonscript.c` -/

def setloaded (env : Env) (l : lua_State) (name : String) : Except Err lua_State := do
  let top := lua_gettop l
  let l ← lua_getglobal env l "package"
  let l ← lua_getfield env l (-1) "loaded"
  let l ← lua_getfield env l (-1) name
  let l ←
    if lua_isnil l (-1) then do
      let l ← lua_pop l 1
      let l ← lua_pushvalue l top
      lua_setfield env l (-2) name
    else pure l
  lua_settop l top

/-- The entry point.  `moonscript_lua` and `moonscript_lua_len` come from the generated
header `moonscript.h` and are parameters here. -/
def luaopen_moonscript (env : Env) (moonscript_lua : List Nat) (moonscript_lua_len : Nat)
    (l : lua_State) : Run (lua_State × Int) := do
  let (l, _) ← luaopen_lpeg env l
  let l ← setloaded env l "lpeg"
  let (l, status) := luaL_loadbuffer env l moonscript_lua moonscript_lua_len "moonscript.lua"
  if status = 0 then
    let l ← lua_call env l 0 1
    pure (l, 1)
  else
    pure (l, 0)

/-! ## Vocabulary of the specification -/

/-- The table `package.loaded`, when the global `package` is a table whose field
`loaded` is a table (both by raw lookup). -/
def Store.loadedTable (st : Store) : Option Nat :=
  match st.raw st.globals (.str "package") with
  | .table p =>
    match st.raw p (.str "loaded") with
    | .table ld => some ld
    | _ => none
  | _ => none

/-- The slot `package.loaded[name]`: `none` when `package.loaded` is no table, otherwise
the stored value (`nil` for an absent key). -/
def packageLoaded (st : Store) (name : String) : Option Value :=
  st.loadedTable.map fun ld => st.raw ld (.str name)

/-- The table `package.loaded` has neither an `__index` nor a `__newindex` metamethod. -/
def Store.loadedPlain (st : Store) : Prop :=
  ∀ ld, st.loadedTable = some ld →
    st.hasIndex (.table ld) = false ∧ st.hasNewindex (.table ld) = false

/-- The value of the global variable `name` (raw). -/
def Store.global (st : Store) (name : String) : Value :=
  st.raw st.globals (.str name)

/-- The value on top of the stack. -/
def lua_State.top (L : lua_State) : Option Value := L.stack.getLast?

/-- The slot `package.loaded[name]` holds a non-nil value. -/
def registered (st : Store) (name : String) : Prop :=
  ∃ s, packageLoaded st name = some s ∧ s ≠ .nil

/-! ## Net effects -/

/-- The net effect of `setloaded`, with the stack traffic resolved. -/
def setloadedNet (env : Env) (l : lua_State) (name : String) : Except Err lua_State :=
  match gettable env l.store (.table l.store.globals) (.str "package") with
  | .error e => .error e
  | .ok (st1, a) =>
    match gettable env st1 a (.str "loaded") with
    | .error e => .error e
    | .ok (st2, b) =>
      match gettable env st2 b (.str name) with
      | .error e => .error e
      | .ok (st3, c) =>
        if c = .nil then
          match l.stack.getLast? with
          | none => .error .invalidIndex
          | some v =>
            match settable env st3 b (.str name) v with
            | .error e => .error e
            | .ok st4 => .ok { l with store := st4 }
        else .ok { l with store := st3 }

/-- The last two steps of `luaopen_moonscript`, decoding and calling, with the monadic
plumbing resolved; `l2` is the state `setloaded` returned. -/
def decodeAndCall (env : Env) (moonscript_lua : List Nat) (moonscript_lua_len : Nat)
    (l2 : lua_State) : Run (lua_State × Int) :=
  let r := env.loadbuffer moonscript_lua moonscript_lua_len "moonscript.lua" l2.store
  if r.1 = 0 then
    ([.openLpeg, .call r.2 0 1 (l2.stack ++ [r.2]) l2.store],
      match env.call r.2 [] l2.store with
      | .error e => .error e
      | .ok (st, rets) => .ok ({ store := st, stack := l2.stack ++ [rets.headD .nil] }, 1))
  else ([.openLpeg], .ok (l2.push r.2, 0))

/-- The run of `luaopen_moonscript`, with the monadic plumbing resolved. -/
def luaopen_moonscriptNet (env : Env) (moonscript_lua : List Nat) (moonscript_lua_len : Nat)
    (l : lua_State) : Run (lua_State × Int) :=
  match env.openLpeg l.store l.stack with
  | .error e => ([.openLpeg], .error e)
  | .ok (st1, stk1, _) =>
    match setloaded env { store := st1, stack := stk1 } "lpeg" with
    | .error e => ([.openLpeg], .error e)
    | .ok l2 => decodeAndCall env moonscript_lua moonscript_lua_len l2

/-! ## Concrete interpreter states and environments -/

/-- A store with globals table 0, `package` = table 1, `package.loaded` = table 2 and
`package.loaded.lpeg` = `slot`; no metamethods anywhere. -/
def demoStore (slot : Value) : Store :=
  { raw := fun t k =>
      if t = 0 ∧ k = .str "package" then .table 1
      else if t = 1 ∧ k = .str "loaded" then .table 2
      else if t = 2 ∧ k = .str "lpeg" then slot
      else .nil
    hasIndex := fun _ => false
    hasNewindex := fun _ => false
    globals := 0 }

/-- As `demoStore nil`, but `package.loaded` carries a `__newindex` metamethod. -/
def guardedStore : Store :=
  { demoStore .nil with hasNewindex := fun v => decide (v = .table 2) }

/-- A store without the `package` library: every table is empty. -/
def bareStore : Store :=
  { raw := fun _ _ => .nil
    hasIndex := fun _ => false
    hasNewindex := fun _ => false
    globals := 0 }

/-- A store in which `package.loaded` is the table of globals itself. -/
def aliasStore : Store :=
  { raw := fun t k =>
      if t = 0 ∧ k = .str "package" then .table 1
      else if t = 1 ∧ k = .str "loaded" then .table 0
      else .nil
    hasIndex := fun _ => false
    hasNewindex := fun _ => false
    globals := 0 }

/-- An environment in which `luaopen_lpeg` pushes `lpegValue` without registering anything,
the decoder answers `status` (pushing function 9 when it is 0), every called function
behaves as `body` says, `__index` handlers answer `nil` and `__newindex` handlers drop
the write. -/
def demoEnv (lpegValue : Value) (status : Int) (body : Except Err (List Value)) : Env :=
  { onIndex := fun _ _ st => .ok (st, .nil)
    onNewindex := fun _ _ _ st => .ok st
    openLpeg := fun st stk => .ok (st, stk ++ [lpegValue], 1)
    loadbuffer := fun _ _ _ _ => (status, if status = 0 then .func 9 else .str "malformed")
    call := fun _ _ st =>
      match body with
      | .error e => .error e
      | .ok rets => .ok (st, rets) }

theorem getElem?_append_cons {α : Type} (l ys : List α) (a : α) :
    (l ++ a :: ys)[l.length]? = some a := by
  rw [List.getElem?_append_right (Nat.le_refl _)]
  simp

theorem index2adr_neg_one (st : Store) (xs : List Value) (v : Value) :
    index2adr { store := st, stack := xs ++ [v] } (-1) = some v := by
  have h := getElem?_append_cons xs [] v
  simp [index2adr, h]

theorem index2adr_neg_two (st : Store) (xs : List Value) (a b : Value) :
    index2adr { store := st, stack := xs ++ [a, b] } (-2) = some a := by
  have h : ((2 : Int)).toNat = 2 := rfl
  have h2 := getElem?_append_cons xs [b] a
  simp [index2adr, h, h2]

theorem index2adr_top (st : Store) (xs ys : List Value) :
    index2adr { store := st, stack := xs ++ ys } (xs.length : Int) = xs.getLast? := by
  cases xs using List.reverseRecOn with
  | nil => simp [index2adr]
  | append_singleton l a =>
    have h2 := getElem?_append_cons l ys a
    simp [index2adr, h2]

theorem lua_getfield_neg_one (env : Env) (st : Store) (xs : List Value) (t : Value)
    (k : String) :
    lua_getfield env { store := st, stack := xs ++ [t] } (-1) k =
      match gettable env st t (.str k) with
      | .error e => .error e
      | .ok (st1, v) => .ok { store := st1, stack := xs ++ [t, v] } := by
  unfold lua_getfield
  rw [index2adr_neg_one]
  cases h : gettable env st t (.str k) with
  | error e => simp [bind, Except.bind, h]
  | ok r => simp [bind, Except.bind, pure, Except.pure, h]

theorem lua_isnil_neg_one (st : Store) (xs : List Value) (c : Value) :
    lua_isnil { store := st, stack := xs ++ [c] } (-1) = true ↔ c = .nil := by
  unfold lua_isnil
  rw [index2adr_neg_one]
  cases c <;> simp

theorem lua_settop_gettop (st st0 : Store) (xs ys : List Value) :
    lua_settop { store := st, stack := xs ++ ys }
        (lua_gettop { store := st0, stack := xs }) =
      .ok { store := st, stack := xs } := by
  simp [lua_settop, lua_gettop]

theorem lua_pop_one (st : Store) (xs : List Value) (c : Value) :
    lua_pop { store := st, stack := xs ++ [c] } 1 =
      .ok { store := st, stack := xs } := by
  simp [lua_pop, lua_settop]

theorem lua_pushvalue_gettop (st st0 : Store) (xs ys : List Value) :
    lua_pushvalue { store := st, stack := xs ++ ys }
        (lua_gettop { store := st0, stack := xs }) =
      match xs.getLast? with
      | none => .error .invalidIndex
      | some v => .ok { store := st, stack := xs ++ ys ++ [v] } := by
  unfold lua_pushvalue lua_gettop
  rw [index2adr_top]
  cases xs.getLast? <;> simp [lua_State.push]

theorem lua_setfield_neg_two (env : Env) (st : Store) (xs : List Value) (t v : Value)
    (k : String) :
    lua_setfield env { store := st, stack := xs ++ [t, v] } (-2) k =
      match settable env st t (.str k) v with
      | .error e => .error e
      | .ok st4 => .ok { store := st4, stack := xs ++ [t] } := by
  unfold lua_setfield
  rw [index2adr_neg_two]
  have hl : (xs ++ [t, v]).getLast? = some v := by simp
  have hd : (xs ++ [t, v]).dropLast = xs ++ [t] := by
    rw [show xs ++ [t, v] = (xs ++ [t]) ++ [v] by simp, List.dropLast_concat]
  simp only [hl, hd]
  cases h : settable env st t (.str k) v with
  | error e => simp [bind, Except.bind]
  | ok r => simp [bind, Except.bind, pure, Except.pure]

theorem setloaded_eq_net (env : Env) (l : lua_State) (name : String) :
    setloaded env l name = setloadedNet env l name := by
  obtain ⟨st, stk⟩ := l
  unfold setloaded setloadedNet lua_getglobal
  simp only []
  cases h1 : gettable env st (.table st.globals) (.str "package") with
  | error e => simp [bind, Except.bind]
  | ok r1 =>
    obtain ⟨st1, a⟩ := r1
    simp only [bind, Except.bind, pure, Except.pure, lua_getfield_neg_one]
    cases h2 : gettable env st1 a (.str "loaded") with
    | error e => simp
    | ok r2 =>
      obtain ⟨st2, b⟩ := r2
      have e2 : stk ++ [a, b] = (stk ++ [a]) ++ [b] := by simp
      simp only [e2, lua_getfield_neg_one]
      cases h3 : gettable env st2 b (.str name) with
      | error e => simp
      | ok r3 =>
        obtain ⟨st3, c⟩ := r3
        have e3 : stk ++ [a] ++ [b, c] = (stk ++ [a, b]) ++ [c] := by simp
        have e4 : stk ++ [a, b] ++ [c] = stk ++ ([a, b] ++ [c]) := by simp
        simp only [e3, lua_isnil_neg_one, lua_pop_one, lua_pushvalue_gettop]
        by_cases hc : c = .nil
        · simp only [hc, if_true]
          cases hv : stk.getLast? with
          | none => simp
          | some v =>
            have e5 : stk ++ [a, b] ++ [v] = (stk ++ [a]) ++ [b, v] := by simp
            have e6 : stk ++ [a] ++ [b] = stk ++ ([a] ++ [b]) := by simp
            simp only [e5, lua_setfield_neg_two]
            cases hs : settable env st3 b (.str name) v with
            | error e => simp
            | ok st4 => simp only [e6, lua_settop_gettop]
        · simp only [hc, if_false, e4, lua_settop_gettop]

theorem adjustResults_one (rets : List Value) : adjustResults 1 rets = [rets.headD .nil] := by
  cases rets <;> simp [adjustResults]

theorem lua_call_zero (env : Env) (st : Store) (xs : List Value) (f : Value) (n : Nat) :
    lua_call env { store := st, stack := xs ++ [f] } 0 n =
      ([.call f 0 n (xs ++ [f]) st],
        match env.call f [] st with
        | .error e => .error e
        | .ok (st1, rets) => .ok { store := st1, stack := xs ++ adjustResults n rets }) := by
  have h := getElem?_append_cons xs [] f
  simp [lua_call, h]

theorem luaopen_moonscript_eq_net (env : Env) (buf : List Nat) (len : Nat) (l : lua_State) :
    luaopen_moonscript env buf len l = luaopen_moonscriptNet env buf len l := by
  unfold luaopen_moonscript luaopen_moonscriptNet decodeAndCall luaopen_lpeg
  cases h1 : env.openLpeg l.store l.stack with
  | error e => simp [bind]
  | ok r1 =>
    obtain ⟨st1, stk1, n1⟩ := r1
    simp only [bind, liftM, monadLift, MonadLift.monadLift]
    cases h2 : setloaded env { store := st1, stack := stk1 } "lpeg" with
    | error e => simp
    | ok l2 =>
      simp only [luaL_loadbuffer, lua_State.push]
      by_cases hs : (env.loadbuffer buf len "moonscript.lua" l2.store).1 = 0
      · simp only [hs, if_true]
        rw [lua_call_zero]
        cases h3 : env.call (env.loadbuffer buf len "moonscript.lua" l2.store).2 [] l2.store with
        | error e => simp
        | ok r3 => simp [pure, adjustResults_one]
      · simp [hs, pure]

theorem loadedTable_eq_some {st : Store} {ld : Nat} (h : st.loadedTable = some ld) :
    ∃ p, st.raw st.globals (.str "package") = .table p ∧ st.raw p (.str "loaded") = .table ld := by
  unfold Store.loadedTable at h
  split at h
  · rename_i p hp
    split at h
    · rename_i ld1 hl
      simp only [Option.some.injEq] at h
      subst h
      exact ⟨p, hp, hl⟩
    · cases h
  · cases h

theorem loadedTable_of_raw {st : Store} {p ld : Nat}
    (hp : st.raw st.globals (.str "package") = .table p)
    (hl : st.raw p (.str "loaded") = .table ld) : st.loadedTable = some ld := by
  simp [Store.loadedTable, hp, hl]

theorem gettable_hit (env : Env) (st : Store) (id : Nat) (k : Value) (h : st.raw id k ≠ .nil) :
    gettable env st (.table id) k = .ok (st, st.raw id k) := by
  simp [gettable, h]

theorem gettable_plain (env : Env) (st : Store) (id : Nat) (k : Value)
    (h : st.hasIndex (.table id) = false) :
    gettable env st (.table id) k = .ok (st, st.raw id k) := by
  simp [gettable, h]

theorem settable_plain (env : Env) (st : Store) (id : Nat) (k v : Value)
    (h : st.hasNewindex (.table id) = false) :
    settable env st (.table id) k v = .ok (st.set id k v) := by
  simp [settable, h]

/-- In the occupied branch `setloaded` returns the state it was given. -/
theorem setloaded_of_occupied (env : Env) (l : lua_State) (name : String) (ld : Nat)
    (hld : l.store.loadedTable = some ld) (hs : l.store.raw ld (.str name) ≠ .nil) :
    setloaded env l name = .ok l := by
  obtain ⟨p, hp, hl⟩ := loadedTable_eq_some hld
  have h1 := gettable_hit env l.store l.store.globals (.str "package") (by rw [hp]; simp)
  have h2 := gettable_hit env l.store p (.str "loaded") (by rw [hl]; simp)
  have h3 := gettable_hit env l.store ld (.str name) hs
  rw [hp] at h1
  rw [hl] at h2
  rw [setloaded_eq_net]
  simp [setloadedNet, h1, h2, h3, hs]

/-- In the empty branch, over a plain `package.loaded` and a non-empty stack, `setloaded`
stores the top of the stack and changes nothing else. -/
theorem setloaded_of_empty (env : Env) (l : lua_State) (name : String) (ld : Nat) (v : Value)
    (hld : l.store.loadedTable = some ld) (hs : l.store.raw ld (.str name) = .nil)
    (hi : l.store.hasIndex (.table ld) = false) (hn : l.store.hasNewindex (.table ld) = false)
    (hv : l.stack.getLast? = some v) :
    setloaded env l name = .ok { l with store := l.store.set ld (.str name) v } := by
  obtain ⟨p, hp, hl⟩ := loadedTable_eq_some hld
  have h1 := gettable_hit env l.store l.store.globals (.str "package") (by rw [hp]; simp)
  have h2 := gettable_hit env l.store p (.str "loaded") (by rw [hl]; simp)
  have h3 := gettable_plain env l.store ld (.str name) hi
  have h4 := settable_plain env l.store ld (.str name) v hn
  rw [hp] at h1
  rw [hl] at h2
  rw [hs] at h3
  rw [setloaded_eq_net]
  simp [setloadedNet, h1, h2, h3, h4, hv]

/-- In the empty branch over an empty stack, `lua_pushvalue(l, 0)` is reached. -/
theorem setloaded_of_empty_stack (env : Env) (l : lua_State) (name : String) (ld : Nat)
    (hld : l.store.loadedTable = some ld) (hs : l.store.raw ld (.str name) = .nil)
    (hi : l.store.hasIndex (.table ld) = false) (hv : l.stack = []) :
    setloaded env l name = .error .invalidIndex := by
  obtain ⟨p, hp, hl⟩ := loadedTable_eq_some hld
  have h1 := gettable_hit env l.store l.store.globals (.str "package") (by rw [hp]; simp)
  have h2 := gettable_hit env l.store p (.str "loaded") (by rw [hl]; simp)
  have h3 := gettable_plain env l.store ld (.str name) hi
  rw [hp] at h1
  rw [hl] at h2
  rw [hs] at h3
  rw [setloaded_eq_net]
  simp [setloadedNet, h1, h2, h3, hv]

/-- Writing into an empty slot of `package.loaded` does not disturb the path to it, also
when `package.loaded` is the table of globals or `package` itself. -/
theorem loadedTable_set (st : Store) (name : String) (ld : Nat) (v : Value)
    (hld : st.loadedTable = some ld) (hs : st.raw ld (.str name) = .nil) :
    (st.set ld (.str name) v).loadedTable = some ld := by
  obtain ⟨p, hp, hl⟩ := loadedTable_eq_some hld
  have e1 : (st.set ld (.str name) v).raw st.globals (.str "package") = .table p := by
    unfold Store.set
    simp only
    split
    · rename_i h
      rw [h.1, h.2, hs] at hp
      cases hp
    · exact hp
  have e2 : (st.set ld (.str name) v).raw p (.str "loaded") = .table ld := by
    unfold Store.set
    simp only
    split
    · rename_i h
      rw [h.1, h.2, hs] at hl
      cases hl
    · exact hl
  exact loadedTable_of_raw e1 e2

theorem raw_set_same (st : Store) (t : Nat) (k v : Value) : (st.set t k v).raw t k = v := by
  simp [Store.set]

theorem raw_set_other (st : Store) (t t1 : Nat) (k k1 v : Value) (h : ¬ (t1 = t ∧ k1 = k)) :
    (st.set t k v).raw t1 k1 = st.raw t1 k1 := by
  simp [Store.set, h]

/-- Whatever the metamethods do, a returning `setloaded` leaves the stack as it found it. -/
theorem setloaded_stack (env : Env) (l l1 : lua_State) (name : String)
    (h : setloaded env l name = .ok l1) : l1.stack = l.stack := by
  rw [setloaded_eq_net] at h
  unfold setloadedNet at h
  split at h
  · cases h
  · split at h
    · cases h
    · split at h
      · cases h
      · split at h
        · split at h
          · cases h
          · split at h
            · cases h
            · cases h; rfl
        · cases h; rfl

/-! ## The registrar `setloaded` -/

theorem packageLoaded_eq_some {st : Store} {name : String} {s : Value}
    (h : packageLoaded st name = some s) :
    ∃ ld, st.loadedTable = some ld ∧ st.raw ld (.str name) = s := by
  unfold packageLoaded at h
  cases hld : st.loadedTable with
  | none => rw [hld] at h; cases h
  | some ld =>
    rw [hld] at h
    simp only [Option.map_some', Option.some.injEq] at h
    exact ⟨ld, rfl, h⟩

theorem packageLoaded_of_loadedTable {st : Store} {name : String} {ld : Nat}
    (h : st.loadedTable = some ld) : packageLoaded st name = some (st.raw ld (.str name)) := by
  simp [packageLoaded, h]

/-- C1: `setloaded` never overwrites an occupied slot.  Whenever `package.loaded[name]`
holds a non-nil value `s` (the boolean `false` included), whatever the stack holds,
`setloaded` returns and `package.loaded[name]` still holds `s`. -/
theorem setloaded_keeps_occupied_slot (env : Env) (l : lua_State) (name : String) (s : Value)
    (hslot : packageLoaded l.store name = some s) (hs : s ≠ .nil) :
    ∃ l1, setloaded env l name = .ok l1 ∧ packageLoaded l1.store name = some s := by
  obtain ⟨ld, hld, hraw⟩ := packageLoaded_eq_some hslot
  exact ⟨l, setloaded_of_occupied env l name ld hld (by rw [hraw]; exact hs), hslot⟩

/-- C1 at a concrete state: the slot holds `false` and the candidate on the stack is 7. -/
theorem setloaded_keeps_occupied_slot_witness :
    packageLoaded (demoStore (.bool false)) "lpeg" = some (.bool false) ∧
    ∃ l1, setloaded (demoEnv .nil 0 (.ok []))
        { store := demoStore (.bool false), stack := [.num 7] } "lpeg" = .ok l1 ∧
      packageLoaded l1.store "lpeg" = some (.bool false) :=
  ⟨by decide,
   setloaded_keeps_occupied_slot _ { store := demoStore (.bool false), stack := [.num 7] }
     "lpeg" (.bool false) (by decide) (by decide)⟩

/-- C2 fails as stated: with a `__newindex` metamethod on `package.loaded` that drops the
write, the stack is `[7]`, the slot is empty, `setloaded` returns, and the slot is still
`nil` rather than 7. -/
theorem setloaded_newindex_counterexample :
    lua_State.top { store := guardedStore, stack := [.num 7] } = some (.num 7) ∧
    packageLoaded guardedStore "lpeg" = some .nil ∧
    ∃ l1, setloaded (demoEnv .nil 0 (.ok [])) { store := guardedStore, stack := [.num 7] }
        "lpeg" = .ok l1 ∧
      packageLoaded l1.store "lpeg" = some .nil ∧
      packageLoaded l1.store "lpeg" ≠ some (.num 7) :=
  ⟨by decide, by decide, _, rfl, by decide, by decide⟩

/-- C2, amended: when `package.loaded` is a table without `__index` and `__newindex`
metamethods, its slot `name` is empty and the stack is not empty, `setloaded` returns and
`package.loaded[name]` equals the value that was on top of the stack at entry. -/
theorem setloaded_fills_empty_slot (env : Env) (l : lua_State) (name : String) (v : Value)
    (htop : l.top = some v) (hslot : packageLoaded l.store name = some .nil)
    (hplain : l.store.loadedPlain) :
    ∃ l1, setloaded env l name = .ok l1 ∧ packageLoaded l1.store name = some v := by
  obtain ⟨ld, hld, hraw⟩ := packageLoaded_eq_some hslot
  obtain ⟨hi, hn⟩ := hplain ld hld
  refine ⟨_, setloaded_of_empty env l name ld v hld hraw hi hn htop, ?_⟩
  rw [packageLoaded_of_loadedTable (loadedTable_set l.store name ld v hld hraw), raw_set_same]

/-- C2 (amended) at a concrete state: empty slot, stack `[3, 7]`, the slot receives 7. -/
theorem setloaded_fills_empty_slot_witness :
    lua_State.top { store := demoStore .nil, stack := [.num 3, .num 7] } = some (.num 7) ∧
    packageLoaded (demoStore .nil) "lpeg" = some .nil ∧
    (demoStore .nil).loadedPlain ∧
    ∃ l1, setloaded (demoEnv .nil 0 (.ok []))
        { store := demoStore .nil, stack := [.num 3, .num 7] } "lpeg" = .ok l1 ∧
      packageLoaded l1.store "lpeg" = some (.num 7) :=
  ⟨by decide, by decide, fun _ _ => ⟨rfl, rfl⟩,
   setloaded_fills_empty_slot _ { store := demoStore .nil, stack := [.num 3, .num 7] } "lpeg"
     (.num 7) (by decide) (by decide) (fun _ _ => ⟨rfl, rfl⟩)⟩

/-- C3 fails as stated: with first candidate `nil` and second candidate 2 on an empty
slot, the first call stores nothing and the slot ends up holding the second value. -/
theorem setloaded_nil_first_counterexample :
    packageLoaded (demoStore .nil) "lpeg" = some .nil ∧
    ∃ l1 l2,
      setloaded (demoEnv .nil 0 (.ok [])) { store := demoStore .nil, stack := [.nil] } "lpeg"
        = .ok l1 ∧
      setloaded (demoEnv .nil 0 (.ok [])) (l1.push (.num 2)) "lpeg" = .ok l2 ∧
      packageLoaded l2.store "lpeg" = some (.num 2) ∧
      packageLoaded l2.store "lpeg" ≠ some .nil :=
  ⟨by decide, _, _, rfl, rfl, by decide, by decide⟩

/-- C3, amended: first value wins when it is not `nil`.  Over a plain `package.loaded`
table whose slot `name` is empty, a call with a non-nil `v1` on top of the stack returns,
and any later call on the resulting store with `v2` on top of the stack returns and
leaves `package.loaded[name]` holding `v1`. -/
theorem setloaded_first_value_wins (env : Env) (l : lua_State) (name : String) (v1 v2 : Value)
    (hslot : packageLoaded l.store name = some .nil) (hplain : l.store.loadedPlain)
    (htop : l.top = some v1) (hv1 : v1 ≠ .nil) :
    ∃ l1, setloaded env l name = .ok l1 ∧
      ∀ m : lua_State, m.store = l1.store → m.top = some v2 →
        ∃ l2, setloaded env m name = .ok l2 ∧ packageLoaded l2.store name = some v1 := by
  obtain ⟨ld, hld, hraw⟩ := packageLoaded_eq_some hslot
  obtain ⟨hi, hn⟩ := hplain ld hld
  refine ⟨_, setloaded_of_empty env l name ld v1 hld hraw hi hn htop, ?_⟩
  intro m hm _
  have hld1 : m.store.loadedTable = some ld := by
    rw [hm]; exact loadedTable_set l.store name ld v1 hld hraw
  have hraw1 : m.store.raw ld (.str name) = v1 := by
    rw [hm]; exact raw_set_same l.store ld (.str name) v1
  refine ⟨m, setloaded_of_occupied env m name ld hld1 (by rw [hraw1]; exact hv1), ?_⟩
  rw [packageLoaded_of_loadedTable hld1, hraw1]

/-- C3 (amended) at a concrete state: candidates 1 then 2, the slot keeps 1. -/
theorem setloaded_first_value_wins_witness :
    packageLoaded (demoStore .nil) "lpeg" = some .nil ∧
    lua_State.top { store := demoStore .nil, stack := [.num 1] } = some (.num 1) ∧
    ∃ l1 l2,
      setloaded (demoEnv .nil 0 (.ok [])) { store := demoStore .nil, stack := [.num 1] } "lpeg"
        = .ok l1 ∧
      setloaded (demoEnv .nil 0 (.ok [])) (l1.push (.num 2)) "lpeg" = .ok l2 ∧
      packageLoaded l2.store "lpeg" = some (.num 1) :=
  ⟨by decide, by decide,
   (setloaded_first_value_wins (demoEnv .nil 0 (.ok []))
      { store := demoStore .nil, stack := [.num 1] } "lpeg"
      (.num 1) (.num 2) (by decide) (fun _ _ => ⟨rfl, rfl⟩) (by decide) (by decide)).elim
    fun l1 h1 => (h1.2 (l1.push (.num 2)) rfl (by simp [lua_State.top, lua_State.push])).elim
      fun l2 h2 => ⟨l1, l2, h1.1, h2.1, h2.2⟩⟩

/-- C4: `setloaded` is stack-neutral.  Whenever it returns, whatever metamethods ran, the
stack depth equals the depth at entry; and it does return with the depth unchanged in the
occupied branch and, over a plain `package.loaded` and a non-empty stack, in the write
branch. -/
theorem setloaded_stack_neutral (env : Env) (l : lua_State) (name : String) :
    (∀ l1, setloaded env l name = .ok l1 → lua_gettop l1 = lua_gettop l) ∧
    (∀ s, packageLoaded l.store name = some s → s ≠ .nil →
      ∃ l1, setloaded env l name = .ok l1 ∧ lua_gettop l1 = lua_gettop l) ∧
    (packageLoaded l.store name = some .nil → l.store.loadedPlain → l.stack ≠ [] →
      ∃ l1, setloaded env l name = .ok l1 ∧ lua_gettop l1 = lua_gettop l) := by
  have key : ∀ l1, setloaded env l name = .ok l1 → lua_gettop l1 = lua_gettop l := by
    intro l1 h
    simp only [lua_gettop, setloaded_stack env l l1 name h]
  refine ⟨key, ?_, ?_⟩
  · intro s hslot hs
    obtain ⟨ld, hld, hraw⟩ := packageLoaded_eq_some hslot
    have h1 := setloaded_of_occupied env l name ld hld (by rw [hraw]; exact hs)
    exact ⟨l, h1, key l h1⟩
  · intro hslot hplain hne
    obtain ⟨ld, hld, hraw⟩ := packageLoaded_eq_some hslot
    obtain ⟨hi, hn⟩ := hplain ld hld
    cases hv : l.stack.getLast? with
    | none => exact absurd (List.getLast?_eq_none_iff.mp hv) hne
    | some v =>
      have h1 := setloaded_of_empty env l name ld v hld hraw hi hn hv
      exact ⟨_, h1, key _ h1⟩

/-- C4 at a concrete state, write branch: depth 2 before and after. -/
theorem setloaded_stack_neutral_witness :
    packageLoaded (demoStore .nil) "lpeg" = some .nil ∧
    ∃ l1, setloaded (demoEnv .nil 0 (.ok []))
        { store := demoStore .nil, stack := [.num 3, .num 7] } "lpeg" = .ok l1 ∧
      lua_gettop l1 = lua_gettop { store := demoStore .nil, stack := [.num 3, .num 7] } :=
  ⟨by decide,
   (setloaded_stack_neutral (demoEnv .nil 0 (.ok []))
      { store := demoStore .nil, stack := [.num 3, .num 7] } "lpeg").2.2
      (by decide) (fun _ _ => ⟨rfl, rfl⟩) (by decide)⟩

/-- C8 fails as stated: in an interpreter without the `package` library the global
`package` is `nil`, and `lua_getfield(l, -1, "loaded")` raises a type error. -/
theorem setloaded_without_package_counterexample :
    setloaded (demoEnv .nil 0 (.ok [])) { store := bareStore, stack := [.num 7] } "lpeg"
      = .error (.typeError .nil) :=
  rfl

/-- C8, amended: `setloaded` runs to completion without an error whenever `package.loaded`
is a table and either the slot `name` is occupied, or the table has no `__index` and
`__newindex` metamethods and the stack is not empty. -/
theorem setloaded_returns (env : Env) (l : lua_State) (name : String) (s : Value)
    (hslot : packageLoaded l.store name = some s)
    (h : s ≠ .nil ∨ (l.store.loadedPlain ∧ l.stack ≠ [])) :
    ∃ l1, setloaded env l name = .ok l1 := by
  obtain ⟨ld, hld, hraw⟩ := packageLoaded_eq_some hslot
  by_cases hs : s = .nil
  · rcases h with h | ⟨hplain, hne⟩
    · exact absurd hs h
    · obtain ⟨hi, hn⟩ := hplain ld hld
      cases hv : l.stack.getLast? with
      | none => exact absurd (List.getLast?_eq_none_iff.mp hv) hne
      | some v =>
        exact ⟨_, setloaded_of_empty env l name ld v hld (by rw [hraw, hs]) hi hn hv⟩
  · exact ⟨l, setloaded_of_occupied env l name ld hld (by rw [hraw]; exact hs)⟩

/-- C8 (amended) at a concrete state: empty slot, plain tables, stack `[7]`. -/
theorem setloaded_returns_witness :
    packageLoaded (demoStore .nil) "lpeg" = some .nil ∧
    ∃ l1, setloaded (demoEnv .nil 0 (.ok [])) { store := demoStore .nil, stack := [.num 7] }
        "lpeg" = .ok l1 :=
  ⟨by decide,
   setloaded_returns _ { store := demoStore .nil, stack := [.num 7] } "lpeg" .nil
     (by decide) (Or.inr ⟨fun _ _ => ⟨rfl, rfl⟩, by decide⟩)⟩

/-- C9 fails as stated: when `package.loaded` is the table of globals itself (all tables
plain), filling the slot `lpeg` creates the global variable `lpeg`. -/
theorem setloaded_alias_counterexample :
    aliasStore.loadedPlain ∧
    aliasStore.global "lpeg" = .nil ∧
    ∃ l1, setloaded (demoEnv .nil 0 (.ok [])) { store := aliasStore, stack := [.num 7] }
        "lpeg" = .ok l1 ∧
      l1.store.global "lpeg" = .num 7 :=
  ⟨fun _ _ => ⟨rfl, rfl⟩, by decide, _, rfl, by decide⟩

/-- C9, amended: over a plain `package.loaded` table `ld`, `setloaded` changes nothing but
the one slot.  In the occupied branch it returns the very state it was given.  Whenever it
returns, the stack contents, the metamethod flags and the globals reference are as before,
every table entry other than `ld[name]` is as before, hence every `package.loaded[k]` with
`k` different from `name` and every global variable other than the variable `name` of the
case where `ld` is the table of globals. -/
theorem setloaded_frame (env : Env) (l : lua_State) (name : String) (ld : Nat)
    (hld : l.store.loadedTable = some ld) (hplain : l.store.loadedPlain) :
    (l.store.raw ld (.str name) ≠ .nil → setloaded env l name = .ok l) ∧
    (∀ l1, setloaded env l name = .ok l1 →
      l1.stack = l.stack ∧
      l1.store.globals = l.store.globals ∧
      l1.store.hasIndex = l.store.hasIndex ∧
      l1.store.hasNewindex = l.store.hasNewindex ∧
      (∀ t k, ¬ (t = ld ∧ k = .str name) → l1.store.raw t k = l.store.raw t k) ∧
      (∀ k, k ≠ name → packageLoaded l1.store k = packageLoaded l.store k) ∧
      (∀ g, ld ≠ l.store.globals ∨ g ≠ name → l1.store.global g = l.store.global g)) := by
  obtain ⟨hi, hn⟩ := hplain ld hld
  refine ⟨fun hs => setloaded_of_occupied env l name ld hld hs, ?_⟩
  intro l1 h1
  by_cases hs : l.store.raw ld (.str name) = .nil
  · cases hv : l.stack.getLast? with
    | none =>
      rw [setloaded_of_empty_stack env l name ld hld hs hi (List.getLast?_eq_none_iff.mp hv)]
        at h1
      cases h1
    | some v =>
      rw [setloaded_of_empty env l name ld v hld hs hi hn hv] at h1
      cases h1
      have hother : ∀ t k, ¬ (t = ld ∧ k = .str name) →
          (l.store.set ld (.str name) v).raw t k = l.store.raw t k :=
        fun t k h => raw_set_other l.store ld t (.str name) k v h
      refine ⟨rfl, rfl, rfl, rfl, hother, ?_, ?_⟩
      · intro k hk
        rw [packageLoaded_of_loadedTable (loadedTable_set l.store name ld v hld hs),
          packageLoaded_of_loadedTable hld]
        exact congrArg some (hother ld (.str k) (fun h => hk (Value.str.inj h.2)))
      · intro g hg
        unfold Store.global
        refine hother l.store.globals (.str g) (fun h => ?_)
        rcases hg with hg | hg
        · exact hg h.1.symm
        · exact hg (Value.str.inj h.2)
  · rw [setloaded_of_occupied env l name ld hld hs] at h1
    cases h1
    exact ⟨rfl, rfl, rfl, rfl, fun _ _ _ => rfl, fun _ _ => rfl, fun _ _ => rfl⟩

/-- C9 (amended) at a concrete state: plain tables, empty slot, stack `[3, 7]`. -/
theorem setloaded_frame_witness :
    (demoStore .nil).loadedTable = some 2 ∧
    ∃ l1, setloaded (demoEnv .nil 0 (.ok []))
        { store := demoStore .nil, stack := [.num 3, .num 7] } "lpeg" = .ok l1 ∧
      l1.stack = [.num 3, .num 7] ∧
      packageLoaded l1.store "moon" = packageLoaded (demoStore .nil) "moon" ∧
      l1.store.global "lpeg" = (demoStore .nil).global "lpeg" :=
  ⟨by decide, _, rfl,
   ((setloaded_frame (demoEnv .nil 0 (.ok []))
      { store := demoStore .nil, stack := [.num 3, .num 7] } "lpeg" 2 (by decide)
      (fun _ _ => ⟨rfl, rfl⟩)).2 _ rfl).1,
   ((setloaded_frame (demoEnv .nil 0 (.ok []))
      { store := demoStore .nil, stack := [.num 3, .num 7] } "lpeg" 2 (by decide)
      (fun _ _ => ⟨rfl, rfl⟩)).2 _ rfl).2.2.2.2.2.1 "moon" (by decide),
   ((setloaded_frame (demoEnv .nil 0 (.ok []))
      { store := demoStore .nil, stack := [.num 3, .num 7] } "lpeg" 2 (by decide)
      (fun _ _ => ⟨rfl, rfl⟩)).2 _ rfl).2.2.2.2.2.2 "lpeg" (Or.inl (by decide))⟩

/-! ## The entry point `luaopen_moonscript` -/

theorem luaopen_lpeg_ok {env : Env} {l l1 : lua_State} {n1 : Int}
    (h : (luaopen_lpeg env l).2 = .ok (l1, n1)) :
    env.openLpeg l.store l.stack = .ok (l1.store, l1.stack, n1) := by
  unfold luaopen_lpeg at h
  simp only at h
  split at h
  · cases h
  · rename_i st stk n heq
    cases h
    exact heq

/-- Once `luaopen_lpeg` and `setloaded` have returned, the run is `decodeAndCall`. -/
theorem luaopen_moonscript_of_prologue (env : Env) (buf : List Nat) (len : Nat)
    (l l1 l2 : lua_State) (n1 : Int) (hl : (luaopen_lpeg env l).2 = .ok (l1, n1))
    (hs : setloaded env l1 "lpeg" = .ok l2) :
    luaopen_moonscript env buf len l = decodeAndCall env buf len l2 := by
  rw [luaopen_moonscript_eq_net]
  unfold luaopen_moonscriptNet
  rw [luaopen_lpeg_ok hl]
  simp only
  rw [hs]

/-- A run whose trace or outcome shows that decoding was reached has passed through
`luaopen_lpeg` and `setloaded`. -/
theorem luaopen_moonscript_prologue_of (env : Env) (buf : List Nat) (len : Nat) (l : lua_State)
    (h : (∃ r, (luaopen_moonscript env buf len l).2 = .ok r) ∨
      (luaopen_moonscript env buf len l).1 ≠ [.openLpeg]) :
    ∃ l1 n1 l2, (luaopen_lpeg env l).2 = .ok (l1, n1) ∧ setloaded env l1 "lpeg" = .ok l2 := by
  rw [luaopen_moonscript_eq_net] at h
  unfold luaopen_moonscriptNet at h
  cases h1 : env.openLpeg l.store l.stack with
  | error e =>
    rw [h1] at h
    rcases h with ⟨r, hr⟩ | h
    · cases hr
    · exact absurd rfl h
  | ok r1 =>
    obtain ⟨st1, stk1, n1⟩ := r1
    rw [h1] at h
    simp only at h
    cases h2 : setloaded env { store := st1, stack := stk1 } "lpeg" with
    | error e =>
      rw [h2] at h
      rcases h with ⟨r, hr⟩ | h
      · cases hr
      · exact absurd rfl h
    | ok l2 =>
      refine ⟨{ store := st1, stack := stk1 }, n1, l2, ?_, h2⟩
      simp [luaopen_lpeg, h1]

theorem luaL_loadbuffer_eq {env : Env} {buf : List Nat} {len : Nat} {l2 l3 : lua_State}
    {status : Int} (h : luaL_loadbuffer env l2 buf len "moonscript.lua" = (l3, status)) :
    (env.loadbuffer buf len "moonscript.lua" l2.store).1 = status ∧
    l3 = l2.push (env.loadbuffer buf len "moonscript.lua" l2.store).2 := by
  unfold luaL_loadbuffer at h
  simp only [Prod.mk.injEq] at h
  exact ⟨h.2, h.1.symm⟩

theorem push_inj {l : lua_State} {a b : Value} (h : l.push a = l.push b) : a = b := by
  unfold lua_State.push at h
  have h1 := congrArg lua_State.stack h
  simpa using h1

/-- C5 fails as stated: the buffer decodes (status 0, the chunk is called) but the chunk
raises an error, which `lua_call` does not catch, so `luaopen_moonscript` does not
return 1. -/
theorem luaopen_moonscript_raising_chunk_counterexample :
    (luaL_loadbuffer (demoEnv (.table 5) 0 (.error (.raised (.str "boom"))))
      { store := (demoStore .nil).set 2 (.str "lpeg") (.table 5), stack := [.table 5] }
      [] 0 "moonscript.lua").2 = 0 ∧
    (luaopen_moonscript (demoEnv (.table 5) 0 (.error (.raised (.str "boom")))) [] 0
      { store := demoStore .nil, stack := [] }).1 =
      [.openLpeg, .call (.func 9) 0 1 [.table 5, .func 9]
        ((demoStore .nil).set 2 (.str "lpeg") (.table 5))] ∧
    (luaopen_moonscript (demoEnv (.table 5) 0 (.error (.raised (.str "boom")))) [] 0
      { store := demoStore .nil, stack := [] }).2 = .error (.raised (.str "boom")) :=
  ⟨rfl, rfl, rfl⟩

/-- C5, amended: in every run in which `luaL_loadbuffer` returns 0, having pushed `f`,
`luaopen_moonscript` calls `f` exactly once, with zero arguments and one requested result.
If that call returns, `luaopen_moonscript` returns 1 and the value on top of the stack is
the first value the chunk returned (`nil` if it returned none); if the call raises an
error, the error propagates and `luaopen_moonscript` does not return. -/
theorem luaopen_moonscript_success_path (env : Env) (buf : List Nat) (len : Nat)
    (l l1 l2 : lua_State) (n1 : Int) (f : Value)
    (hl : (luaopen_lpeg env l).2 = .ok (l1, n1)) (hs : setloaded env l1 "lpeg" = .ok l2)
    (hd : luaL_loadbuffer env l2 buf len "moonscript.lua" = (l2.push f, 0)) :
    (luaopen_moonscript env buf len l).1 =
      [.openLpeg, .call f 0 1 (l2.stack ++ [f]) l2.store] ∧
    (∀ st rets, env.call f [] l2.store = .ok (st, rets) →
      ∃ l4, (luaopen_moonscript env buf len l).2 = .ok (l4, 1) ∧
        l4.top = some (rets.headD .nil) ∧ l4.stack = l2.stack ++ [rets.headD .nil] ∧
        l4.store = st) ∧
    (∀ e, env.call f [] l2.store = .error e →
      (luaopen_moonscript env buf len l).2 = .error e) := by
  obtain ⟨h0, hf⟩ := luaL_loadbuffer_eq hd
  have hf1 := (push_inj hf).symm
  rw [luaopen_moonscript_of_prologue env buf len l l1 l2 n1 hl hs]
  unfold decodeAndCall
  simp only [h0, hf1, if_true]
  refine ⟨trivial, ?_, ?_⟩
  · intro st rets hc
    rw [hc]
    exact ⟨_, rfl, by simp [lua_State.top], rfl, rfl⟩
  · intro e hc
    rw [hc]

/-- C5 (amended) at a concrete run: the chunk returns one table, which is exported. -/
theorem luaopen_moonscript_success_path_witness :
    ∃ l4, (luaopen_moonscript (demoEnv (.table 5) 0 (.ok [.table 7])) [] 0
        { store := demoStore .nil, stack := [] }).2 = .ok (l4, 1) ∧
      l4.top = some (.table 7) :=
  have h := (luaopen_moonscript_success_path (demoEnv (.table 5) 0 (.ok [.table 7])) [] 0
    { store := demoStore .nil, stack := [] }
    { store := demoStore .nil, stack := [.table 5] }
    { store := (demoStore .nil).set 2 (.str "lpeg") (.table 5), stack := [.table 5] }
    1 (.func 9) rfl rfl rfl).2.1 ((demoStore .nil).set 2 (.str "lpeg") (.table 5)) [.table 7] rfl
  h.elim fun l4 h4 => ⟨l4, h4.1, h4.2.1⟩

/-- C6: decode failure path.  In every run in which `luaL_loadbuffer` returns a non-zero
status, `luaopen_moonscript` returns 0, its trace holds no call of a chunk, and it raises
no error; conversely, whenever `luaopen_moonscript` returns, the count is 0 or 1, it is 1
exactly when the status was 0 and 0 exactly when the status was not 0. -/
theorem luaopen_moonscript_decode_failure (env : Env) (buf : List Nat) (len : Nat)
    (l : lua_State) :
    (∀ l1 n1 l2 l3 status, (luaopen_lpeg env l).2 = .ok (l1, n1) →
      setloaded env l1 "lpeg" = .ok l2 →
      luaL_loadbuffer env l2 buf len "moonscript.lua" = (l3, status) → status ≠ 0 →
      luaopen_moonscript env buf len l = ([.openLpeg], .ok (l3, 0))) ∧
    (∀ l4 n, (luaopen_moonscript env buf len l).2 = .ok (l4, n) →
      (n = 0 ∨ n = 1) ∧
      ∃ l1 n1 l2, (luaopen_lpeg env l).2 = .ok (l1, n1) ∧ setloaded env l1 "lpeg" = .ok l2 ∧
        (n = 1 ↔ (luaL_loadbuffer env l2 buf len "moonscript.lua").2 = 0) ∧
        (n = 0 ↔ (luaL_loadbuffer env l2 buf len "moonscript.lua").2 ≠ 0)) := by
  constructor
  · intro l1 n1 l2 l3 status hl hs hd hne
    obtain ⟨h0, h3⟩ := luaL_loadbuffer_eq hd
    rw [luaopen_moonscript_of_prologue env buf len l l1 l2 n1 hl hs]
    unfold decodeAndCall
    have hne1 : ¬ (env.loadbuffer buf len "moonscript.lua" l2.store).1 = 0 := by
      rw [h0]; exact hne
    simp only [hne1, if_false, h3]
  · intro l4 n h
    obtain ⟨l1, n1, l2, hl, hs⟩ := luaopen_moonscript_prologue_of env buf len l (Or.inl ⟨_, h⟩)
    rw [luaopen_moonscript_of_prologue env buf len l l1 l2 n1 hl hs] at h
    unfold decodeAndCall at h
    have hstat : (luaL_loadbuffer env l2 buf len "moonscript.lua").2 =
        (env.loadbuffer buf len "moonscript.lua" l2.store).1 := rfl
    by_cases h0 : (env.loadbuffer buf len "moonscript.lua" l2.store).1 = 0
    · simp only [h0, if_true] at h
      split at h
      · cases h
      · cases h
        refine ⟨Or.inr rfl, l1, n1, l2, hl, hs, ?_, ?_⟩
        · simp [hstat, h0]
        · simp [hstat, h0]
    · simp only [h0, if_false] at h
      cases h
      refine ⟨Or.inl rfl, l1, n1, l2, hl, hs, ?_, ?_⟩
      · simp [hstat, h0]
      · simp [hstat, h0]

/-- C6 at a concrete run: the decoder rejects the buffer, the count is 0 and the trace
holds the call of `luaopen_lpeg` only. -/
theorem luaopen_moonscript_decode_failure_witness :
    luaopen_moonscript (demoEnv (.table 5) 3 (.ok [.table 7])) [] 0
        { store := demoStore .nil, stack := [] } =
      ([.openLpeg],
        .ok ({ store := (demoStore .nil).set 2 (.str "lpeg") (.table 5),
               stack := [.table 5, .str "malformed"] }, 0)) :=
  (luaopen_moonscript_decode_failure (demoEnv (.table 5) 3 (.ok [.table 7])) [] 0
    { store := demoStore .nil, stack := [] }).1
    { store := demoStore .nil, stack := [.table 5] } 1
    { store := (demoStore .nil).set 2 (.str "lpeg") (.table 5), stack := [.table 5] }
    { store := (demoStore .nil).set 2 (.str "lpeg") (.table 5),
      stack := [.table 5, .str "malformed"] } 3 rfl rfl rfl (by decide)

/-- After `luaopen_lpeg` has left a store in which `lpeg` is registered, or a plain
`package.loaded` with an empty slot and a non-nil value on top of the stack, `setloaded`
returns a state with the same stack in which `lpeg` is registered. -/
theorem setloaded_registers (env : Env) (l1 : lua_State)
    (hreg : registered l1.store "lpeg" ∨
      (packageLoaded l1.store "lpeg" = some .nil ∧ l1.store.loadedPlain ∧
        ∃ v, l1.top = some v ∧ v ≠ .nil)) :
    ∃ l2, setloaded env l1 "lpeg" = .ok l2 ∧ registered l2.store "lpeg" ∧
      l2.stack = l1.stack := by
  rcases hreg with ⟨s, hslot, hs⟩ | ⟨hslot, hplain, v, htop, hv⟩
  · obtain ⟨ld, hld, hraw⟩ := packageLoaded_eq_some hslot
    exact ⟨l1, setloaded_of_occupied env l1 "lpeg" ld hld (by rw [hraw]; exact hs),
      ⟨s, hslot, hs⟩, rfl⟩
  · obtain ⟨ld, hld, hraw⟩ := packageLoaded_eq_some hslot
    obtain ⟨hi, hn⟩ := hplain ld hld
    refine ⟨_, setloaded_of_empty env l1 "lpeg" ld v hld hraw hi hn htop, ⟨v, ?_, hv⟩, rfl⟩
    rw [packageLoaded_of_loadedTable (loadedTable_set l1.store "lpeg" ld v hld hraw),
      raw_set_same]

/-- C10 fails as stated: `luaopen_lpeg` leaves exactly one value, `nil`, registering
nothing; the buffer decodes and the chunk is called in a store where
`package.loaded["lpeg"]` is `nil`. -/
theorem luaopen_moonscript_chunk_sees_nil_counterexample :
    (demoEnv .nil 0 (.ok [.table 7])).openLpeg (demoStore .nil) [] =
      .ok (demoStore .nil, [] ++ [.nil], 1) ∧
    (luaopen_moonscript (demoEnv .nil 0 (.ok [.table 7])) [] 0
      { store := demoStore .nil, stack := [] }).1 =
      [.openLpeg, .call (.func 9) 0 1 [.nil, .func 9] ((demoStore .nil).set 2 (.str "lpeg") .nil)] ∧
    packageLoaded ((demoStore .nil).set 2 (.str "lpeg") .nil) "lpeg" = some .nil :=
  ⟨rfl, rfl, by decide⟩

/-- C10, amended: registration precedes execution.  Whenever the trace of a run of
`luaopen_moonscript` holds a call of a chunk `f`, then `luaopen_lpeg` and after it
`setloaded(l, "lpeg")` had returned, the trace is the call of `luaopen_lpeg` followed by
that one call, made with zero arguments and one requested result on the stack that
`setloaded` returned (the stack `luaopen_lpeg` left) plus `f`, in the store `setloaded`
returned; and in that store `package.loaded["lpeg"]` is non-nil provided `luaopen_lpeg` had
registered it or had left a plain `package.loaded` and a non-nil value on top of the
stack. -/
theorem luaopen_moonscript_registration_precedes (env : Env) (buf : List Nat) (len : Nat)
    (l : lua_State) (f : Value) (na nr : Nat) (stk : List Value) (st : Store)
    (hmem : Event.call f na nr stk st ∈ (luaopen_moonscript env buf len l).1) :
    ∃ l1 n1 l2, (luaopen_lpeg env l).2 = .ok (l1, n1) ∧ setloaded env l1 "lpeg" = .ok l2 ∧
      luaL_loadbuffer env l2 buf len "moonscript.lua" = (l2.push f, 0) ∧
      (luaopen_moonscript env buf len l).1 = [.openLpeg, .call f 0 1 (l1.stack ++ [f]) l2.store] ∧
      na = 0 ∧ nr = 1 ∧ stk = l2.stack ++ [f] ∧ l2.stack = l1.stack ∧ st = l2.store ∧
      ((registered l1.store "lpeg" ∨
          (packageLoaded l1.store "lpeg" = some .nil ∧ l1.store.loadedPlain ∧
            ∃ v, l1.top = some v ∧ v ≠ .nil)) →
        registered st "lpeg") := by
  have hne : (luaopen_moonscript env buf len l).1 ≠ [.openLpeg] := by
    intro h
    rw [h] at hmem
    simp at hmem
  obtain ⟨l1, n1, l2, hl, hs⟩ := luaopen_moonscript_prologue_of env buf len l (Or.inr hne)
  have hrun := luaopen_moonscript_of_prologue env buf len l l1 l2 n1 hl hs
  have hstk := setloaded_stack env l1 l2 "lpeg" hs
  rw [hrun] at hmem ⊢
  unfold decodeAndCall at hmem ⊢
  by_cases h0 : (env.loadbuffer buf len "moonscript.lua" l2.store).1 = 0
  · simp only [h0, if_true] at hmem ⊢
    simp only [List.mem_cons, List.mem_singleton, List.not_mem_nil, or_false, false_or,
      Event.call.injEq] at hmem
    rcases hmem with hmem | ⟨hf, hna, hnr, hstk1, hst⟩
    · cases hmem
    subst hf hna hnr hstk1 hst
    refine ⟨l1, n1, l2, hl, hs, ?_, ?_, rfl, rfl, rfl, hstk, rfl, ?_⟩
    · simp [luaL_loadbuffer, h0]
    · rw [hstk]
    · intro hreg
      obtain ⟨l2a, hsa, hra, _⟩ := setloaded_registers env l1 hreg
      rw [hs] at hsa
      cases hsa
      exact hra
  · simp only [h0, if_false] at hmem
    simp at hmem

/-- C10 (amended) at a concrete run: `luaopen_lpeg` pushes its table, `setloaded`
registers it, and the chunk is called in a store where `lpeg` is registered. -/
theorem luaopen_moonscript_registration_precedes_witness :
    Event.call (.func 9) 0 1 [.table 5, .func 9]
        ((demoStore .nil).set 2 (.str "lpeg") (.table 5)) ∈
      (luaopen_moonscript (demoEnv (.table 5) 0 (.ok [.table 7])) [] 0
        { store := demoStore .nil, stack := [] }).1 ∧
    registered ((demoStore .nil).set 2 (.str "lpeg") (.table 5)) "lpeg" :=
  have hmem : Event.call (.func 9) 0 1 [.table 5, .func 9]
        ((demoStore .nil).set 2 (.str "lpeg") (.table 5)) ∈
      (luaopen_moonscript (demoEnv (.table 5) 0 (.ok [.table 7])) [] 0
        { store := demoStore .nil, stack := [] }).1 :=
    List.mem_cons_of_mem _ (List.mem_singleton.mpr rfl)
  ⟨hmem,
   (luaopen_moonscript_registration_precedes (demoEnv (.table 5) 0 (.ok [.table 7])) [] 0
      { store := demoStore .nil, stack := [] } (.func 9) 0 1 [.table 5, .func 9]
      ((demoStore .nil).set 2 (.str "lpeg") (.table 5)) hmem).elim
    fun _ h1 => h1.elim fun _ h2 => h2.elim fun _ h3 => ⟨.table 5, by decide, by decide⟩⟩

end Moonscript
